import Mathlib

/-!
Verification of the myhdl toVHDL conversion backend
(`src/myhdl/_toVHDL/_convert.py`) against its natural-language
specification.

The Python code is embedded shallowly: the `vhdl_type` class family becomes
an inductive type, visitor methods become pure functions over explicit
inputs, text emission becomes lists of output lines (one list entry per
`writeline`), mutation of tree annotations becomes functional update, and
methods that may call `raiseError` return `Except String`.
-/

namespace ToVHDL

/-- Embedding of the `vhdl_type` class family of `_convert.py`
(`vhdl_std_logic`, `vhdl_boolean`, `vhdl_unsigned(size)`,
`vhdl_signed(size)`, `vhdl_int`).  In the source every `vhdl_int` is
constructed as `vhdl_int()`, whose inherited `size` attribute is `0`, so
the embedding carries no size argument for it. -/
inductive VhdlType where
  | std_logic
  | boolean
  | unsigned (size : Nat)
  | signed (size : Nat)
  | int
deriving DecidableEq, Repr

/-- The `size` attribute of each `vhdl_type` instance as constructed in the
source: `vhdl_std_logic.__init__` and `vhdl_boolean.__init__` set
`self.size = 1`; `vhdl_unsigned`/`vhdl_signed` store the size passed to
them; `vhdl_int()` keeps the default `size = 0`. -/
def VhdlType.size : VhdlType → Nat
  | .std_logic => 1
  | .boolean => 1
  | .unsigned n => n
  | .signed n => n
  | .int => 0

/-- `o.size if isinstance(o, vhdl_type) else 0`: the `s1`/`s2` computation at
the head of `maxType` (a Python `None` is `Option.none` here). -/
def optSize : Option VhdlType → Nat
  | none => 0
  | some t => t.size

/-- `isinstance(o, vhdl_signed)`. -/
def isSignedT : Option VhdlType → Bool
  | some (.signed _) => true
  | _ => false

/-- `isinstance(o, vhdl_unsigned)`. -/
def isUnsignedT : Option VhdlType → Bool
  | some (.unsigned _) => true
  | _ => false

/-- `isinstance(o, vhdl_std_logic)`. -/
def isStdLogicT : Option VhdlType → Bool
  | some .std_logic => true
  | _ => false

/-- `isinstance(o, vhdl_int)`. -/
def isIntT : Option VhdlType → Bool
  | some .int => true
  | _ => false

/-- `isinstance(o, (vhdl_signed, vhdl_int))`. -/
def isSignedOrIntT : Option VhdlType → Bool
  | some (.signed _) => true
  | some .int => true
  | _ => false

/-- `isinstance(o, (vhdl_unsigned, vhdl_int))`. -/
def isUnsignedOrIntT : Option VhdlType → Bool
  | some (.unsigned _) => true
  | some .int => true
  | _ => false

/-- Embedding of `maxType(o1, o2)` (`_convert.py`, the `combine` rule of the
spec): size is the max of the operand sizes (0 for a non-`vhdl_type`), the
result is signed if either operand is, else unsigned if either is, else
`std_logic` if either is, else integer if either is, else Python `None`. -/
def maxType (o1 o2 : Option VhdlType) : Option VhdlType :=
  let s := max (optSize o1) (optSize o2)
  if isSignedT o1 || isSignedT o2 then some (.signed s)
  else if isUnsignedT o1 || isUnsignedT o2 then some (.unsigned s)
  else if isStdLogicT o1 || isStdLogicT o2 then some .std_logic
  else if isIntT o1 || isIntT o2 then some .int
  else none

/-- Embedding of `_AnnotateTypesVisitor.binaryOp` (used for `Add`, `Sub`,
`Mod`): the descriptor given to the node from its operands' descriptors
`l = node.left.vhdlObj` and `r = node.right.vhdlObj`. -/
def annotateBinaryOp (l r : Option VhdlType) : VhdlType :=
  if isIntT r && isIntT l then .int
  else if isSignedOrIntT r && isSignedOrIntT l then
    .signed (max (optSize l) (optSize r))
  else if isUnsignedOrIntT r && isUnsignedOrIntT l then
    .unsigned (max (optSize l) (optSize r))
  else .int

/-- Embedding of `_AnnotateTypesVisitor.multiBitOp` (`Bitand`, `Bitor`,
`Bitxor`): folds `maxType` over the operand descriptors starting from
`None` and assigns the result to the node and to every operand.  The method
contains no `raiseError` call; it is embedded in the `Except` convention
used for visitor methods that can abort, and always succeeds.  The result
pair is (`node.vhdlObj`, the updated operand descriptors). -/
def annotateMultiBitOp (objs : List (Option VhdlType)) :
    Except String (Option VhdlType × List (Option VhdlType)) :=
  let o := objs.foldl maxType none
  .ok (o, objs.map fun _ => o)

/-- Embedding of `_AnnotateTypesVisitor.visitCompare`: the node's descriptor
becomes boolean and both compared operands are unified to
`maxType(expr.vhdlObj, code.vhdlObj)`.  No `raiseError` call occurs. -/
def annotateCompare (exprObj codeObj : Option VhdlType) :
    Except String (VhdlType × Option VhdlType × Option VhdlType) :=
  let o := maxType exprObj codeObj
  .ok (.boolean, o, o)

/-- The conversion wrapper chosen by the default branch of
`_ConvertVisitor.visitAssign`: the `convOpen`/`convClose` strings written
around the right-hand expression, and the (possibly re-typed) descriptor of
the right-hand side. -/
structure ConvWrap where
  convOpen : String
  convClose : String
  rhsObj : Option VhdlType
deriving DecidableEq, Repr

/-- Embedding of the conversion-insertion logic of
`_ConvertVisitor.visitAssign` (default, non-ROM branch): for an
`unsigned`/`signed` left-hand side the right-hand side is left alone only
when its descriptor has the identical class and size, otherwise the
`to_unsigned`/`to_signed` wrapper sized to `lhs.vhdlObj.size` is chosen and
the right-hand side is re-typed to `vhdl_int()`; a `std_logic` left-hand
side forces the right-hand side's descriptor to `vhdl_std_logic()`. -/
def assignConversion (lhsObj rhsObj : Option VhdlType) : ConvWrap :=
  match lhsObj with
  | some (.unsigned n) =>
      match rhsObj with
      | some (.unsigned m) =>
          if n = m then ⟨"", "", rhsObj⟩
          else ⟨"to_unsigned(", ", " ++ toString n ++ ")", some .int⟩
      | _ => ⟨"to_unsigned(", ", " ++ toString n ++ ")", some .int⟩
  | some (.signed n) =>
      match rhsObj with
      | some (.signed m) =>
          if n = m then ⟨"", "", rhsObj⟩
          else ⟨"to_signed(", ", " ++ toString n ++ ")", some .int⟩
      | _ => ⟨"to_signed(", ", " ++ toString n ++ ")", some .int⟩
  | some .std_logic => ⟨"", "", some .std_logic⟩
  | _ => ⟨"", "", rhsObj⟩

/-- The text of the emitted assignment in the default branch of
`visitAssign`: the rendered target, the assignment operator (`<=` for a
signal target, `:=` otherwise), and the rendered right-hand expression
between `convOpen` and `convClose`. -/
def assignLine (lhsStr rhsStr : String) (sigAss : Bool)
    (lhsObj rhsObj : Option VhdlType) : String :=
  let c := assignConversion lhsObj rhsObj
  lhsStr ++ (if sigAss then " <= " else " := ") ++
    c.convOpen ++ rhsStr ++ c.convClose ++ ";"

/-- Modelled from the spec: the bit-string formatter `bin(n, width)` used by
the ROM branch of `visitAssign` lives in the excluded `myhdl` package; per
the spec it produces a binary string sized to the left-hand side's width
(here: the width-`width` binary representation of the value, most
significant bit first). -/
def bin : Nat → Nat → String
  | 0, _ => ""
  | w + 1, n => bin w (n / 2) ++ (if n % 2 = 0 then "0" else "1")

/-- The literal written for one ROM entry by the ROM branch of
`visitAssign`: a character literal for a `std_logic` target, a plain
decimal for an integer target, and otherwise a double-quoted binary string
sized to `size = lhs.vhdlObj.size`. -/
def romLiteral (lhsObj : VhdlType) (n : Nat) : String :=
  match lhsObj with
  | .std_logic => "'" ++ toString n ++ "';"
  | .int => toString n ++ ";"
  | _ => "\"" ++ bin lhsObj.size n ++ "\";"

/-- One alternative line of the ROM `case` statement: the enumerated entry
at position `i` of a table of length `romLen` (`when others` for the last
position, `when i` otherwise), the rendered target, the assignment operator
and the entry's literal. -/
def romAltLine (lhsStr : String) (sigAss : Bool) (lhsObj : VhdlType)
    (romLen i n : Nat) : String :=
  (if i = romLen - 1 then "when others => " else "when " ++ toString i ++ " => ")
    ++ lhsStr ++ (if sigAss then " <= " else " := ") ++ romLiteral lhsObj n

/-- Embedding of the ROM shortcut branch of `_ConvertVisitor.visitAssign`
(an assignment whose right-hand side subscripts a `_Rom` with one index):
one output line per `writeline` of the source — the `case` header over the
rendered index expression, one alternative per table entry (the enumerate
loop), and the `end case;` footer. -/
def romCaseLines (idxStr lhsStr : String) (sigAss : Bool)
    (lhsObj : VhdlType) (rom : List Nat) : List String :=
  ("case " ++ idxStr ++ " is") ::
    ((rom.enum.map fun p => romAltLine lhsStr sigAss lhsObj rom.length p.1 p.2)
      ++ ["end case;"])

/-- Modelled from the spec: an edge-waiter (`_WaiterList`) is a suspend
condition keyed to a rising/falling transition of a named signal.  The
source compares waiter objects by identity; each signal owns one waiter
per direction, so value equality on (direction, signal) is faithful. -/
structure Edge where
  rising : Bool
  sig : String
deriving DecidableEq, Repr

/-- Modelled from the spec: the `_toVHDL` rendering of an edge-waiter, the
edge test text used for guards and `elsif` conditions. -/
def Edge.toVHDL (e : Edge) : String :=
  (if e.rising then "rising_edge(" else "falling_edge(") ++ e.sig ++ ")"

/-- One entry of a sensitivity list: an edge-waiter (`_WaiterList`), a
plain `Signal`, or a `delay`. -/
inductive Sens where
  | waiter (e : Edge)
  | sig (name : String)
  | del (d : Nat)
deriving DecidableEq, Repr

/-- The base kind `bt` computed at the head of `manageEdges`. -/
inductive SensKind where
  | waiter
  | signal
  | del
deriving DecidableEq, Repr

/-- `isinstance`-classification of a sensitivity entry. -/
def Sens.kind : Sens → SensKind
  | .waiter _ => .waiter
  | .sig _ => .signal
  | .del _ => .del

/-- `e._toVHDL()` for an entry of the else-edge list built by
`manageEdges` (only waiters are ever placed there). -/
def Sens.toVHDL : Sens → String
  | .waiter e => e.toVHDL
  | .sig n => n
  | .del d => toString d

/-- The text written for a sensitivity entry in a process header
(`str(e)`: e.g. a signal's name). -/
def Sens.nameStr : Sens → String
  | .waiter e => e.sig
  | .sig n => n
  | .del d => toString d

/-- A branch test of a conditional: either an equality comparison of a
variable against a constant/enumerated item, or any other rendered
expression.  The item string is the `_toVHDL()` of the compared object
(`test.ops[0][1].obj`), read by `mapToCase`. -/
inductive TestExpr where
  | eq (caseVar : String) (item : String)
  | other (rendered : String)
deriving DecidableEq, Repr

/-- The rendering of a branch test by the expression visitor
(`visitCompare` emits a fully parenthesised comparison). -/
def TestExpr.render : TestExpr → String
  | .eq v item => "(" ++ v ++ " = " ++ item ++ ")"
  | .other s => s

/-- `test.ops[0][1].obj._toVHDL()` as read by `mapToCase`; only equality
tests ever reach `mapToCase`. -/
def TestExpr.caseItem : TestExpr → String
  | .eq _ item => item
  | .other s => s

/-- The compared variable of an equality test, if the test is one. -/
def TestExpr.caseVarOf : TestExpr → Option String
  | .eq v _ => some v
  | .other _ => none

/-- One `(test, suite)` pair of a conditional.  `testEdge` is modelled from
the spec: the result of the excluded `getEdge` helper, which locates the
edge-waiter tested by the branch condition (`none` when it cannot).  The
suite is its pre-rendered statement lines. -/
structure IfBranch where
  test : TestExpr
  testEdge : Option Edge
  suite : List String
deriving DecidableEq, Repr

/-- A conditional statement node: `node.ignore`, the `(test, suite)` list,
the optional else suite, and the `edge` annotation that `manageEdges`
attaches to the else branch (Python: `ifnode.else_.edge`). -/
structure IfStmt where
  ignore : Bool := false
  tests : List IfBranch
  elseSuite : Option (List String)
  elseEdge : Option (List Sens) := none
deriving DecidableEq, Repr

/-- Modelled from the spec: the excluded analysis stage sets `node.isCase`
iff every branch's test is an equality comparison of one common variable
against distinct constant/enumerated values with no overlapping
conditions. -/
def isCaseMappable (node : IfStmt) : Bool :=
  match node.tests with
  | [] => false
  | b :: bs =>
      match b.test.caseVarOf with
      | none => false
      | some v =>
          (b :: bs).all (fun br => br.test.caseVarOf = some v) &&
            decide ((b :: bs).map (fun br => br.test.caseItem)).Nodup

/-- `node.caseVar`: the common compared variable of a case-mappable
conditional (set by the excluded analysis stage; here derived from the
first branch). -/
def IfStmt.caseVar (node : IfStmt) : String :=
  match node.tests with
  | b :: _ =>
      match b.test with
      | .eq v _ => v
      | .other _ => ""
  | [] => ""

/-- Embedding of `_ConvertVisitor.mapToCase`: the `case` header over the
common variable, one `when <item> =>` alternative per branch in source
order each followed by the branch's suite, the optional else branch as
`when others =>`, and the `end case;` footer. -/
def mapToCase (node : IfStmt) : List String :=
  ("case " ++ node.caseVar ++ " is") ::
    ((node.tests.flatMap fun b => ("when " ++ b.test.caseItem ++ " =>") :: b.suite)
      ++ (match node.elseSuite with
          | some els => "when others =>" :: els
          | none => [])
      ++ ["end case;"])

/-- The line introducing the else branch in `mapToIf`: when `manageEdges`
attached uncovered edges to it (`getEdge(node.else_)` is not `None`), an
`elsif` over the `"or "`-joined edge tests; otherwise a plain `else`. -/
def elseIntro (node : IfStmt) : String :=
  match node.elseEdge with
  | some edges =>
      "elsif " ++ String.intercalate "or " (edges.map Sens.toVHDL) ++ " then"
  | none => "else"

/-- Embedding of `_ConvertVisitor.mapToIf`: an `if`/`elsif` line per branch
in source order followed by its suite, the else part introduced by
`elseIntro`, and the `end if;` footer. -/
def mapToIf (node : IfStmt) : List String :=
  (node.tests.enum.flatMap fun p =>
    ((if p.1 = 0 then "if " else "elsif ") ++ p.2.test.render ++ " then")
      :: p.2.suite)
    ++ (match node.elseSuite with
        | some els => elseIntro node :: els
        | none => [])
    ++ ["end if;"]

/-- Embedding of `_ConvertVisitor.visitIf`: nothing for an ignored node,
`mapToCase` for a case-marked node, `mapToIf` otherwise. -/
def visitIf (node : IfStmt) : List String :=
  if node.ignore then []
  else if isCaseMappable node then mapToCase node
  else mapToIf node

/-- A statement of a process body as the code-generation visitor sees it: a
conditional node, or any other statement already rendered to lines. -/
inductive Stmt where
  | ifStmt (node : IfStmt)
  | raw (lines : List String)
deriving DecidableEq, Repr

/-- Statement dispatch of the convert visitor for the two statement shapes
of the embedding. -/
def renderStmt : Stmt → List String
  | .ifStmt n => visitIf n
  | .raw ls => ls

/-- Embedding of `_ConvertVisitor.manageEdges(ifnode, senslist)`.  The
classification of the list's base kind, the asynchronous-reset rewriting
for two or more edge-waiters (collect the edge tested by every branch,
error when one cannot be located or when there is no else branch, attach
the untested edges to the else branch, replace the list by the underlying
signals), and the pass-through for every other list.  `ifnode` is the first
body statement (`w.body.nodes[1]`), returned updated. -/
def manageEdges (stmts : List Stmt) (senslist : List Sens) :
    Except String (List Stmt × List Sens) :=
  match senslist with
  | [] => .error "IndexError: senslist[0]"
  | first :: _ =>
      let bt := first.kind
      if ¬ senslist.all (fun e => e.kind = bt) then
        .error "base type error in sensitivity list"
      else if 2 ≤ senslist.length ∧ bt = SensKind.waiter then
        match stmts with
        | .ifStmt ifnode :: rest =>
            if ifnode.tests.any (fun b => b.testEdge = none) then
              .error "no edge test"
            else if ifnode.elseSuite = none then
              .error "no else test"
            else
              let asyncEdges := ifnode.tests.filterMap (fun b => b.testEdge)
              let edges := senslist.filter
                (fun s => ¬ asyncEdges.any (fun e => s = Sens.waiter e))
              let senslist' := senslist.map
                (fun s => match s with
                  | .waiter e => Sens.sig e.sig
                  | s' => s')
              .ok (.ifStmt {ifnode with elseEdge := some edges} :: rest,
                senslist')
        | _ => .error "AssertionError: ifnode is not an If"
      else .ok (stmts, senslist)

/-- Embedding of `_ConvertAlwaysVisitor.visitFunction`: run `manageEdges`
over the first body statement and the sensitivity list, compute the
single-edge condition (`len(senslist) == 1` and the entry is a waiter),
emit the process header over the managed sensitivity list, the local
declarations, `begin`, the single-edge guard if any, every body statement,
the matching `end if;` if guarded, and the process footer. -/
def visitFunctionAlways (name : String) (declLines : List String)
    (stmts : List Stmt) (senslist : List Sens) : Except String (List String) :=
  match stmts with
  | [] => .error "IndexError: w.body.nodes[1]"
  | _ :: _ =>
      match manageEdges stmts senslist with
      | .error e => .error e
      | .ok (stmts', senslist') =>
          let singleEdge := match senslist' with
            | [Sens.waiter e] => some e
            | _ => none
          let sensText := match singleEdge with
            | some e => e.sig
            | none => String.intercalate ", " (senslist'.map Sens.nameStr)
          .ok ((name ++ ": process (" ++ sensText ++ ") is") ::
            declLines ++ ["begin"] ++
            (match singleEdge with
              | some e => ["if " ++ e.toVHDL ++ " then"]
              | none => []) ++
            stmts'.flatMap renderStmt ++
            (match singleEdge with
              | some _ => ["end if;"]
              | none => []) ++
            ["end process " ++ name ++ ";"])

/-- The process-wide state touched by the enumerated-type declaration
sites: the set of types whose `declared` flag is set (the flag lives on
the type object; modelled from the spec as a set, types identified by
name) and the global `_enumTypeList` walked by the end-of-conversion
cleanup. -/
structure EnumState where
  declared : List String
  enumTypeList : List String
deriving DecidableEq, Repr

/-- Embedding of `_declareEnumType` (the identical check/emit/set/append
pattern is inlined in `writeDeclaration`): nothing when the type's
`declared` flag is already set; otherwise the declaration is emitted, the
flag is set and the type is appended to `_enumTypeList`.  The first
component holds the emitted declaration, identified by its type. -/
def declareEnumType (t : String) (st : EnumState) : List String × EnumState :=
  if t ∈ st.declared then ([], st)
  else ([t], ⟨st.declared ++ [t], st.enumTypeList ++ [t]⟩)

/-- All enumerated-type declaration sites of one conversion, run in order
(a site is the enum type it references), concatenating what each site
emits. -/
def runEnumSites : List String → EnumState → List String × EnumState
  | [], st => ([], st)
  | t :: ts, st =>
      let p := declareEnumType t st
      let q := runEnumSites ts p.2
      (p.1 ++ q.1, q.2)

/-- Embedding of the cleanup at the end of `_ToVHDLConvertor.__call__`:
`enumType._clearDeclared()` for every type of `_enumTypeList` (the list
itself is never reset). -/
def clearDeclaredAll (st : EnumState) : EnumState :=
  ⟨st.declared.filter (fun t => t ∉ st.enumTypeList), st.enumTypeList⟩

/-- A `Signal` as the declaration writer reads it: the fields consumed by
`_getRangeString`/`_getTypeString` (whether `_val` is an enum item and its
type name, whether `_type is bool`, `_nrbits`, whether `_min` is negative),
the current value `int(s._val)`, and the `_driven`/`_read` flags. -/
structure Sig where
  name : String
  enumName : Option String
  isBool : Bool
  nrbits : Option Nat
  minNeg : Bool
  val : Int
  driven : Bool
  read : Bool
deriving DecidableEq, Repr

/-- Embedding of `_getRangeString`: empty for enum- or bool-valued signals,
`(nrbits-1 downto 0)` for sized ones, and the `AssertionError` raised for
anything else. -/
def getRangeString (s : Sig) : Except String String :=
  if s.enumName.isSome then .ok ""
  else if s.isBool then .ok ""
  else match s.nrbits with
    | some n => .ok ("(" ++ toString (n - 1) ++ " downto 0)")
    | none => .error "AssertionError"

/-- Embedding of `_getTypeString`: the enum type's name, `std_logic` for a
bool signal, `signed ` when `_min` is negative, else `unsigned`. -/
def getTypeString (s : Sig) : String :=
  match s.enumName with
  | some en => en
  | none =>
      if s.isBool then "std_logic"
      else if s.minNeg then "signed " else "unsigned"

/-- Modelled from the spec: the enumerated type declaration text produced
by the excluded `enumType._toVHDL`; opaque here, only its identity
matters. -/
def enumDeclText (t : String) : String := "type " ++ t

/-- A memory (`_Ram`-style entry of `memlist`): its `decl` eligibility
flag, name, depth and element object. -/
structure Mem where
  decl : Bool
  name : String
  depth : Nat
  elObj : Sig
deriving DecidableEq, Repr

/-- The enum-declaration step of `_writeSigDecls` for one signal: the
`_declareEnumType` call for an enum-valued signal (its emitted declaration
text and the updated flag state), nothing otherwise. -/
def sigEnumLines (s : Sig) (st : EnumState) : List String × EnumState :=
  match s.enumName with
  | some en =>
      ((declareEnumType en st).1.map enumDeclText, (declareEnumType en st).2)
  | none => ([], st)

/-- The declaration line written for one non-port signal: a `signal`
declaration for a driven signal, the `wire` declaration for a
read-but-undriven one, nothing for a signal neither driven nor read. -/
def sigDeclLines (s : Sig) (r : String) : List String :=
  if s.driven then
    ["signal " ++ s.name ++ ": " ++ getTypeString s ++ r ++ ";"]
  else if s.read then ["wire " ++ r ++ s.name ++ ";"]
  else []

/-- The advisory warnings issued for one non-port signal (the
`_error.UnusedSignal` / `_error.UndrivenSignal` codes live in the excluded
`_toVerilog` module; the spec's names are used for their text). -/
def sigWarns (s : Sig) : List String :=
  if s.driven then (if ¬ s.read then ["UnusedSignal: " ++ s.name] else [])
  else if s.read then ["UndrivenSignal: " ++ s.name]
  else []

/-- The `constwires.append(s)` step: a read-but-undriven signal is
collected for the trailing constant assignment. -/
def sigConstwires (s : Sig) : List Sig :=
  if s.driven = false ∧ s.read = true then [s] else []

/-- The signal loop of `_writeSigDecls`: skip ports, declare the enum type
of an enum-valued signal, compute the range string (aborting on a
malformed signal), then emit that signal's declaration lines, warnings and
constwire entry.  Result: (lines, warnings, constwires, enum state). -/
def sigLoop (argnames : List String) :
    List Sig → EnumState →
      Except String (List String × List String × List Sig × EnumState)
  | [], st => .ok ([], [], [], st)
  | s :: rest, st =>
      if s.name ∈ argnames then sigLoop argnames rest st
      else
        match getRangeString s with
        | .error e => .error e
        | .ok r =>
            match sigLoop argnames rest (sigEnumLines s st).2 with
            | .error e => .error e
            | .ok (ls, ws, cs, st2) =>
                .ok ((sigEnumLines s st).1 ++ sigDeclLines s r ++ ls,
                  sigWarns s ++ ws, sigConstwires s ++ cs, st2)

/-- The memory part of `_writeSigDecls`: one `reg` array declaration per
memory whose `decl` flag is set. -/
def memLoop : List Mem → Except String (List String)
  | [] => .ok []
  | m :: rest =>
      if ¬ m.decl then memLoop rest
      else
        match getRangeString m.elObj with
        | .error e => .error e
        | .ok r =>
            match memLoop rest with
            | .error e => .error e
            | .ok ls =>
                .ok (("reg " ++ r ++ m.name ++ " [0:" ++ toString m.depth ++
                  "-1];") :: ls)

/-- Embedding of `_writeSigDecls`: the signal loop, the memory loop, then
one constant continuous assignment `name <= value;` per collected
constwire. -/
def writeSigDecls (argnames : List String) (siglist : List Sig)
    (memlist : List Mem) (st : EnumState) :
    Except String (List String × List String × EnumState) :=
  match sigLoop argnames siglist st with
  | .error e => .error e
  | .ok (ls, ws, cs, st2) =>
      match memLoop memlist with
      | .error e => .error e
      | .ok ms =>
          .ok (ls ++ ms ++
            cs.map (fun s => s.name ++ " <= " ++ toString s.val ++ ";"),
            ws, st2)

/-- `_getRangeString` succeeds on every well-formed signal (enum-valued,
bool, or sized). -/
theorem getRangeString_ok (s : Sig)
    (h : s.enumName.isSome ∨ s.isBool = true ∨ s.nrbits.isSome) :
    ∃ r, getRangeString s = .ok r := by
  by_cases he : s.enumName.isSome
  · exact ⟨"", by simp [getRangeString, he]⟩
  · by_cases hb : s.isBool
    · exact ⟨"", by simp [getRangeString, he, hb]⟩
    · rcases h with h | h | h
      · exact absurd h he
      · exact absurd h hb
      · obtain ⟨n, hn⟩ := Option.isSome_iff_exists.mp h
        exact ⟨"(" ++ toString (n - 1) ++ " downto 0)",
          by simp [getRangeString, he, hb, hn]⟩

/-- The signal loop completes on a list of well-formed signals. -/
theorem sigLoop_ok (argnames : List String) (siglist : List Sig)
    (hwf : ∀ s ∈ siglist,
      s.enumName.isSome ∨ s.isBool = true ∨ s.nrbits.isSome) :
    ∀ st, ∃ out, sigLoop argnames siglist st = .ok out := by
  induction siglist with
  | nil => exact fun st => ⟨_, rfl⟩
  | cons s rest ih =>
      intro st
      have ihr := ih (fun s' hs' => hwf s' (by simp [hs']))
      by_cases ha : s.name ∈ argnames
      · obtain ⟨out, hout⟩ := ihr st
        exact ⟨out, by simp only [sigLoop, if_pos ha]; exact hout⟩
      · obtain ⟨r, hr⟩ := getRangeString_ok s (hwf s (by simp))
        obtain ⟨⟨ls, ws, cs, st2⟩, hrec⟩ := ihr (sigEnumLines s st).2
        refine ⟨((sigEnumLines s st).1 ++ sigDeclLines s r ++ ls,
          sigWarns s ++ ws, sigConstwires s ++ cs, st2), ?_⟩
        simp only [sigLoop, if_neg ha, hr, hrec]

/-- The memory loop completes on a list of well-formed memories. -/
theorem memLoop_ok (memlist : List Mem)
    (hwf : ∀ m ∈ memlist, m.decl = true →
      m.elObj.enumName.isSome ∨ m.elObj.isBool = true ∨
        m.elObj.nrbits.isSome) :
    ∃ ms, memLoop memlist = .ok ms := by
  induction memlist with
  | nil => exact ⟨_, rfl⟩
  | cons m rest ih =>
      obtain ⟨ms, hms⟩ := ih (fun m' hm' => hwf m' (by simp [hm']))
      by_cases hd : m.decl
      · obtain ⟨r, hr⟩ := getRangeString_ok m.elObj (hwf m (by simp) hd)
        exact ⟨_, by simp only [memLoop, hd, not_true, if_neg, hr, hms]; rfl⟩
      · exact ⟨ms, by simp only [memLoop, hd]; simpa using hms⟩

/-- For a read-but-undriven non-port signal the signal loop emits the
`wire` declaration, the `UndrivenSignal` advisory, and collects the signal
among the constwires. -/
theorem sigLoop_undriven_mem (argnames : List String) (s : Sig)
    (hna : s.name ∉ argnames) (hr : s.read = true) (hd : s.driven = false)
    (r : String) (hrr : getRangeString s = .ok r) :
    ∀ (siglist : List Sig) (st : EnumState) ls ws cs st2,
      s ∈ siglist →
      sigLoop argnames siglist st = .ok (ls, ws, cs, st2) →
      ("wire " ++ r ++ s.name ++ ";") ∈ ls ∧
      ("UndrivenSignal: " ++ s.name) ∈ ws ∧ s ∈ cs := by
  intro siglist
  induction siglist with
  | nil =>
      intro st ls ws cs st2 hmem
      cases hmem
  | cons s0 rest ih =>
      intro st ls ws cs st2 hmem hok
      by_cases ha : s0.name ∈ argnames
      · simp only [sigLoop, if_pos ha] at hok
        rcases List.mem_cons.mp hmem with rfl | hmem'
        · exact absurd ha hna
        · exact ih st ls ws cs st2 hmem' hok
      · simp only [sigLoop, if_neg ha] at hok
        cases hgr : getRangeString s0 with
        | error e =>
            rw [hgr] at hok
            cases hok
        | ok r0 =>
            rw [hgr] at hok
            cases hrec : sigLoop argnames rest (sigEnumLines s0 st).2 with
            | error e =>
                rw [hrec] at hok
                cases hok
            | ok out =>
                obtain ⟨ls', ws', cs', st2'⟩ := out
                rw [hrec] at hok
                have hls : (sigEnumLines s0 st).1 ++ sigDeclLines s0 r0 ++
                    ls' = ls := congrArg (·.1) (Except.ok.inj hok)
                have hws : sigWarns s0 ++ ws' = ws :=
                  congrArg (·.2.1) (Except.ok.inj hok)
                have hcs : sigConstwires s0 ++ cs' = cs :=
                  congrArg (·.2.2.1) (Except.ok.inj hok)
                rcases List.mem_cons.mp hmem with rfl | hmem'
                · have hr0 : r0 = r := by
                    rw [hrr] at hgr
                    exact (Except.ok.inj hgr).symm
                  subst hr0
                  refine ⟨?_, ?_, ?_⟩
                  · rw [← hls]
                    simp [sigDeclLines, hd, hr]
                  · rw [← hws]
                    simp [sigWarns, hd, hr]
                  · rw [← hcs]
                    simp [sigConstwires, hd, hr]
                · have hm := ih (sigEnumLines s0 st).2 ls' ws' cs' st2'
                    hmem' hrec
                  refine ⟨?_, ?_, ?_⟩
                  · rw [← hls]
                    simp [hm.1]
                  · rw [← hws]
                    simp [hm.2.1]
                  · rw [← hcs]
                    simp [hm.2.2]

/-- A set `declared` flag survives any further run of declaration sites. -/
theorem runEnum_declared_mono (sites : List String) (st : EnumState)
    (t : String) (h : t ∈ st.declared) :
    t ∈ (runEnumSites sites st).2.declared := by
  induction sites generalizing st with
  | nil => exact h
  | cons s ts ih =>
      simp only [runEnumSites]
      by_cases hs : s ∈ st.declared
      · simpa [declareEnumType, hs] using ih st h
      · exact ih _ (by simp [declareEnumType, hs, h])

/-- Every referenced type's flag is set after the sites have run. -/
theorem runEnum_mem_declared (sites : List String) (st : EnumState)
    (t : String) (h : t ∈ sites) :
    t ∈ (runEnumSites sites st).2.declared := by
  induction sites generalizing st with
  | nil => cases h
  | cons s ts ih =>
      simp only [runEnumSites]
      rcases List.mem_cons.mp h with rfl | hts
      · by_cases hs : t ∈ st.declared
        · exact runEnum_declared_mono ts _ t (by simp [declareEnumType, hs])
        · exact runEnum_declared_mono ts _ t (by simp [declareEnumType, hs])
      · exact ih _ hts

/-- How often a type's declaration is emitted: never when its flag was
already set, and exactly once per run in which its flag becomes set. -/
theorem runEnum_count (sites : List String) (st : EnumState) (t : String) :
    (t ∈ st.declared → (runEnumSites sites st).1.count t = 0) ∧
    (t ∉ st.declared → (runEnumSites sites st).1.count t =
      if t ∈ (runEnumSites sites st).2.declared then 1 else 0) := by
  induction sites generalizing st with
  | nil =>
      refine ⟨fun _ => rfl, fun h => ?_⟩
      simp [runEnumSites, h]
  | cons s ts ih =>
      constructor
      · intro h
        simp only [runEnumSites, List.count_append]
        by_cases hs : s ∈ st.declared
        · simp only [declareEnumType, if_pos hs]
          rw [(ih st).1 h]
          simp
        · have hts : t ≠ s := fun he => hs (he ▸ h)
          simp only [declareEnumType, if_neg hs]
          rw [(ih ⟨st.declared ++ [s], st.enumTypeList ++ [s]⟩).1
            (by simp [h])]
          simp [hts]
      · intro h
        simp only [runEnumSites, List.count_append]
        by_cases hs : s ∈ st.declared
        · simp only [declareEnumType, if_pos hs]
          have := (ih st).2 h
          simpa using this
        · simp only [declareEnumType, if_neg hs]
          by_cases hts : t = s
          · subst hts
            have h0 := (ih ⟨st.declared ++ [t], st.enumTypeList ++ [t]⟩).1
              (by simp)
            have hmem := runEnum_declared_mono ts
              ⟨st.declared ++ [t], st.enumTypeList ++ [t]⟩ t (by simp)
            rw [h0]
            simp [hmem]
          · have := (ih ⟨st.declared ++ [s], st.enumTypeList ++ [s]⟩).2
              (by simp [h, hts])
            rw [this]
            simp [hts]

/-- Flags set during a run belong to `_enumTypeList` afterwards. -/
theorem runEnum_declared_in_list (sites : List String) (st : EnumState)
    (hinv : ∀ t ∈ st.declared, t ∈ st.enumTypeList) :
    ∀ t ∈ (runEnumSites sites st).2.declared,
      t ∈ (runEnumSites sites st).2.enumTypeList := by
  induction sites generalizing st with
  | nil => exact hinv
  | cons s ts ih =>
      simp only [runEnumSites]
      refine ih _ ?_
      intro t ht
      by_cases hs : s ∈ st.declared
      · simp only [declareEnumType, if_pos hs] at ht ⊢
        exact hinv t ht
      · simp only [declareEnumType, if_neg hs] at ht ⊢
        rcases List.mem_append.mp ht with h1 | h2
        · exact List.mem_append.mpr (Or.inl (hinv t h1))
        · exact List.mem_append.mpr (Or.inr h2)

/-- The fallible inputs of one `_ToVHDLConvertor.__call__` invocation:
whether signal tracing is active, whether the target is callable, the
outcome of hierarchy extraction (`_HierExtr`), and the outcomes of the
phases that run after the output file has been opened (`_analyzeSigs`
through `_writeModuleFooter`), in order. -/
structure ConvCall where
  tracing : Bool
  isCallable : Bool
  hierExtr : Except String Unit
  phases : List (Except String Unit)
deriving Repr

/-- Sequencing of the post-open phases: the first raised error aborts the
rest. -/
def runPhases : List (Except String Unit) → Except String Unit
  | [] => .ok ()
  | .error e :: _ => .error e
  | .ok () :: rest => runPhases rest

/-- The observable trace of one call: whether it was the re-entrant
pass-through, the result, the `_converting` flag once the call is over
(by return or by raise), and whether the output file was opened and
closed. -/
structure CallTrace where
  passthrough : Bool
  result : Except String Unit
  convertingAfter : Nat
  fileOpened : Bool
  fileClosed : Bool
deriving Repr

/-- Embedding of the control flow of `_ToVHDLConvertor.__call__`:
pass-through when `_converting` is already set; the tracing and
callability checks (before the flag is touched); `_converting = 1` around
`_HierExtr` with `finally: _converting = 0`; then `open(vpath, 'w')`, the
remaining phases, and `vfile.close()` only after every phase has
succeeded — the source has no try/finally enclosing the file. -/
def toVHDLCall (convertingBefore : Nat) (c : ConvCall) : CallTrace :=
  if convertingBefore ≠ 0 then
    ⟨true, .ok (), convertingBefore, false, false⟩
  else if c.tracing then
    ⟨false, .error "Cannot use toVerilog while tracing signals", 0,
      false, false⟩
  else if ¬ c.isCallable then
    ⟨false, .error "FirstArgType", 0, false, false⟩
  else
    match c.hierExtr with
    | .error e => ⟨false, .error e, 0, false, false⟩
    | .ok () =>
        match runPhases c.phases with
        | .error e => ⟨false, .error e, 0, true, false⟩
        | .ok () => ⟨false, .ok (), 0, true, true⟩

/-! ### Theorems -/

/-- Claim C1: for every generated assignment whose left-hand side's
descriptor is `Unsigned(n)` or `Signed(n)`, if the right-hand side's
descriptor is not of the identical signedness and width then the emitted
right-hand expression is wrapped in a `to_unsigned(..., n)` /
`to_signed(..., n)` conversion sized exactly `n` and the right-hand side is
re-typed to Integer before emission; if the two descriptors are identical
no wrapper is added; if the left-hand side's descriptor is Bit
(`std_logic`), the right-hand side's descriptor is forced to Bit before
emission. -/
theorem claim_C1_conversion_insertion (n : Nat) (rhs : Option VhdlType)
    (lhsStr rhsStr : String) (sigAss : Bool) :
    (rhs ≠ some (.unsigned n) →
      assignConversion (some (.unsigned n)) rhs =
        ⟨"to_unsigned(", ", " ++ toString n ++ ")", some .int⟩ ∧
      assignLine lhsStr rhsStr sigAss (some (.unsigned n)) rhs =
        lhsStr ++ (if sigAss then " <= " else " := ") ++
          "to_unsigned(" ++ rhsStr ++ ", " ++ toString n ++ ")" ++ ";") ∧
    (assignConversion (some (.unsigned n)) (some (.unsigned n)) =
      ⟨"", "", some (.unsigned n)⟩) ∧
    (rhs ≠ some (.signed n) →
      assignConversion (some (.signed n)) rhs =
        ⟨"to_signed(", ", " ++ toString n ++ ")", some .int⟩) ∧
    (assignConversion (some (.signed n)) (some (.signed n)) =
      ⟨"", "", some (.signed n)⟩) ∧
    ((assignConversion (some .std_logic) rhs).rhsObj = some .std_logic) := by
  refine ⟨?_, ?_, ?_, ?_, ?_⟩
  · intro h
    have hc : assignConversion (some (.unsigned n)) rhs =
        ⟨"to_unsigned(", ", " ++ toString n ++ ")", some .int⟩ := by
      match rhs with
      | some (.unsigned m) =>
          have hnm : ¬ n = m := fun e => h (by rw [e])
          simp [assignConversion, hnm]
      | some (.signed m) => rfl
      | some .std_logic => rfl
      | some .boolean => rfl
      | some .int => rfl
      | none => rfl
    refine ⟨hc, ?_⟩
    simp only [assignLine, hc]
    cases sigAss <;> simp [String.append_assoc]
  · simp [assignConversion]
  · intro h
    match rhs with
    | some (.signed m) =>
        have hnm : ¬ n = m := fun e => h (by rw [e])
        simp [assignConversion, hnm]
    | some (.unsigned m) => rfl
    | some .std_logic => rfl
    | some .boolean => rfl
    | some .int => rfl
    | none => rfl
  · simp [assignConversion]
  · rfl

/-- Witness for claim C1 at a concrete input: an 8-bit unsigned target with
a signed right-hand side of the same width gets the `to_unsigned(..., 8)`
wrapper and the right-hand side is re-typed to integer. -/
theorem claim_C1_conversion_insertion_witness :
    assignConversion (some (.unsigned 8)) (some (.signed 8)) =
      ⟨"to_unsigned(", ", 8)", some .int⟩ :=
  ((claim_C1_conversion_insertion 8 (some (.signed 8)) "" "" true).1
    (by decide)).1

/-- A one-entry edge-waiter sensitivity list passes `manageEdges`
unchanged (the asynchronous-reset rewriting needs two or more waiters). -/
theorem manageEdges_single (stmts : List Stmt) (e : Edge) :
    manageEdges stmts [Sens.waiter e] = .ok (stmts, [Sens.waiter e]) := by
  simp [manageEdges, Sens.kind]

/-- Emission for a process whose managed sensitivity list is one
edge-waiter: the body is wrapped in exactly one edge guard. -/
theorem visitFunctionAlways_single (name : String) (declLines : List String)
    (a : Stmt) (rest : List Stmt) (e : Edge) :
    visitFunctionAlways name declLines (a :: rest) [Sens.waiter e] =
      .ok ((name ++ ": process (" ++ e.sig ++ ") is") ::
        declLines ++ ["begin"] ++ ["if " ++ e.toVHDL ++ " then"] ++
        (a :: rest).flatMap renderStmt ++ ["end if;"] ++
        ["end process " ++ name ++ ";"]) := by
  simp [visitFunctionAlways, manageEdges_single]

/-- `manageEdges` on a two-or-more edge-waiter sensitivity list whose first
body statement is a conditional testing a locatable edge in every branch
and carrying an else branch: the untested edges are attached to the else
branch and the list is replaced by the underlying signals. -/
theorem manageEdges_multi (ifnode : IfStmt) (rest : List Stmt)
    (e1 e2 : Edge) (es : List Edge)
    (hall : ∀ b ∈ ifnode.tests, b.testEdge ≠ none)
    (els : List String) (hels : ifnode.elseSuite = some els)
    (uncov : List Sens)
    (huncov : uncov = ((e1 :: e2 :: es).filter (fun w =>
      ¬ (ifnode.tests.filterMap (fun b => b.testEdge)).any
        (fun ae => w = ae))).map Sens.waiter) :
    manageEdges (.ifStmt ifnode :: rest) ((e1 :: e2 :: es).map Sens.waiter) =
      .ok (.ifStmt {ifnode with elseEdge := some uncov} :: rest,
        (e1 :: e2 :: es).map (fun w => Sens.sig w.sig)) := by
  subst huncov
  have hany : (ifnode.tests.any fun b => b.testEdge = none) = false := by
    rw [List.any_eq_false]
    intro b hb
    simpa using hall b hb
  simp [manageEdges, Sens.kind, hany, hels, List.map_map, Function.comp]
  rw [show Sens.waiter e1 :: Sens.waiter e2 :: List.map Sens.waiter es =
      List.map Sens.waiter (e1 :: e2 :: es) from rfl,
    List.filter_map]
  congr 1
  refine List.filter_congr ?_
  intro w hw
  show decide _ = decide _
  rw [decide_eq_decide]
  constructor
  · intro h x hx
    have h2 := h x hx
    cases hte : x.testEdge with
    | none => rfl
    | some ae =>
        rw [hte] at h2
        simpa [Sens.waiter.injEq] using h2
  · intro h x hx
    have h2 := h x hx
    cases hte : x.testEdge with
    | none => rfl
    | some ae =>
        rw [hte] at h2
        simpa [Sens.waiter.injEq] using h2
/-- Emission for a process with a two-or-more edge-waiter sensitivity list:
the header lists the plain underlying signals, no outer single-edge guard
is emitted, and the body's conditional is rendered with the uncovered
edges attached to its else branch. -/
theorem visitFunctionAlways_multi (name : String) (declLines : List String)
    (ifnode : IfStmt) (rest : List Stmt) (e1 e2 : Edge) (es : List Edge)
    (hall : ∀ b ∈ ifnode.tests, b.testEdge ≠ none)
    (els : List String) (hels : ifnode.elseSuite = some els)
    (uncov : List Sens)
    (huncov : uncov = ((e1 :: e2 :: es).filter (fun w =>
      ¬ (ifnode.tests.filterMap (fun b => b.testEdge)).any
        (fun ae => w = ae))).map Sens.waiter) :
    visitFunctionAlways name declLines (.ifStmt ifnode :: rest)
        ((e1 :: e2 :: es).map Sens.waiter) =
      .ok ((name ++ ": process (" ++
          String.intercalate ", " ((e1 :: e2 :: es).map (fun w => w.sig)) ++
          ") is") ::
        declLines ++ ["begin"] ++
        (visitIf {ifnode with elseEdge := some uncov} ++
          rest.flatMap renderStmt) ++
        ["end process " ++ name ++ ";"]) := by
  simp only [visitFunctionAlways, List.map_cons]
  rw [show (Sens.waiter e1 :: Sens.waiter e2 :: List.map Sens.waiter es) =
      List.map Sens.waiter (e1 :: e2 :: es) from rfl]
  rw [manageEdges_multi ifnode rest e1 e2 es hall els hels uncov huncov]
  simp [renderStmt, Sens.nameStr, List.map_map, Function.comp]
  rfl

/-- `manageEdges` aborts with the `no edge test` structural error when a
branch of the outermost conditional has no locatable edge test (two or
more edge-waiters in the list). -/
theorem manageEdges_noEdgeTest (ifnode : IfStmt) (rest : List Stmt)
    (e1 e2 : Edge) (es : List Edge)
    (hbad : ∃ b ∈ ifnode.tests, b.testEdge = none) :
    manageEdges (.ifStmt ifnode :: rest) ((e1 :: e2 :: es).map Sens.waiter) =
      .error "no edge test" := by
  have hany : (ifnode.tests.any fun b => b.testEdge = none) = true := by
    rw [List.any_eq_true]
    obtain ⟨b, hb, he⟩ := hbad
    exact ⟨b, hb, by simp [he]⟩
  simp [manageEdges, Sens.kind, hany]

/-- `manageEdges` aborts with the `no else test` structural error when the
outermost conditional has no else branch (two or more edge-waiters in the
list, every branch's edge locatable). -/
theorem manageEdges_noElseTest (ifnode : IfStmt) (rest : List Stmt)
    (e1 e2 : Edge) (es : List Edge)
    (hall : ∀ b ∈ ifnode.tests, b.testEdge ≠ none)
    (hnoelse : ifnode.elseSuite = none) :
    manageEdges (.ifStmt ifnode :: rest) ((e1 :: e2 :: es).map Sens.waiter) =
      .error "no else test" := by
  have hany : (ifnode.tests.any fun b => b.testEdge = none) = false := by
    rw [List.any_eq_false]
    intro b hb
    simpa using hall b hb
  simp [manageEdges, Sens.kind, hany, hnoelse]

/-- The width-sized formatter `bin` always produces exactly `width`
characters. -/
theorem bin_length (w : Nat) : ∀ n, (bin w n).length = w := by
  induction w with
  | zero => intro n; rfl
  | succ k ih =>
      intro n
      show (bin k (n / 2) ++ (if n % 2 = 0 then "0" else "1")).length = k + 1
      rw [String.length_append, ih]
      by_cases h : n % 2 = 0 <;> simp [h] <;> decide

/-- Claim C2: an assignment from a single-index ROM subscript is emitted as
a `case` statement on the index expression with exactly one alternative per
table entry in table order; each alternative assigns the entry's literal
formatted per the left-hand side's descriptor (character literal for Bit,
decimal for Integer, binary string sized to the left-hand side's width
otherwise); the alternative for the last table entry is emitted as the
`others` branch instead of a numbered choice. -/
theorem claim_C2_rom_case (idxStr lhsStr : String) (sigAss : Bool)
    (lhsObj : VhdlType) (rom : List Nat) (hne : rom ≠ []) :
    (romCaseLines idxStr lhsStr sigAss lhsObj rom).length = rom.length + 2 ∧
    (romCaseLines idxStr lhsStr sigAss lhsObj rom).head? =
      some ("case " ++ idxStr ++ " is") ∧
    (romCaseLines idxStr lhsStr sigAss lhsObj rom)[rom.length + 1]? =
      some "end case;" ∧
    (∀ i : Nat, i + 1 < rom.length →
      (romCaseLines idxStr lhsStr sigAss lhsObj rom)[i + 1]? =
        some ("when " ++ toString i ++ " => " ++ lhsStr ++
          (if sigAss then " <= " else " := ") ++
          romLiteral lhsObj (rom.getD i 0))) ∧
    (romCaseLines idxStr lhsStr sigAss lhsObj rom)[rom.length]? =
      some ("when others => " ++ lhsStr ++
        (if sigAss then " <= " else " := ") ++
        romLiteral lhsObj (rom.getLast hne)) ∧
    (∀ n, romLiteral .std_logic n = "'" ++ toString n ++ "';") ∧
    (∀ n, romLiteral .int n = toString n ++ ";") ∧
    (∀ n, lhsObj ≠ .std_logic → lhsObj ≠ .int →
      romLiteral lhsObj n = "\"" ++ bin lhsObj.size n ++ "\";" ∧
      (bin lhsObj.size n).length = lhsObj.size) := by
  have hmap : ∀ i : Nat, i < rom.length →
      (rom.enum.map fun p =>
        romAltLine lhsStr sigAss lhsObj rom.length p.1 p.2)[i]? =
      some (romAltLine lhsStr sigAss lhsObj rom.length i (rom.getD i 0)) := by
    intro i hi
    have h1 : rom.enum[i]? = some (i, rom.getD i 0) := by
      rw [List.getElem?_enum]
      rw [List.getElem?_eq_getElem hi]
      simp [List.getD, List.getElem?_eq_getElem hi]
    rw [List.getElem?_map, h1]
    rfl
  have hlen : (rom.enum.map fun p =>
      romAltLine lhsStr sigAss lhsObj rom.length p.1 p.2).length = rom.length := by
    simp
  refine ⟨?_, rfl, ?_, ?_, ?_, fun n => rfl, fun n => rfl, ?_⟩
  · simp [romCaseLines]
  · simp only [romCaseLines, List.getElem?_cons_succ]
    rw [List.getElem?_append_right (by omega)]
    rw [hlen]
    simp
  · intro i hi
    simp only [romCaseLines, List.getElem?_cons_succ]
    rw [List.getElem?_append_left (by omega), hmap i (by omega)]
    have hne' : ¬ i = rom.length - 1 := by omega
    simp [romAltLine, hne', String.append_assoc]
  · have hpos : 0 < rom.length := List.length_pos.mpr hne
    obtain ⟨k, hk⟩ : ∃ k, rom.length = k + 1 := ⟨rom.length - 1, by omega⟩
    have hlast : rom.getLast hne = rom.getD (rom.length - 1) 0 := by
      rw [List.getLast_eq_getElem]
      simp [List.getD, List.getElem?_eq_getElem
        (by omega : rom.length - 1 < rom.length)]
    rw [hlast, hk]
    simp only [romCaseLines, List.getElem?_cons_succ]
    rw [List.getElem?_append_left (by omega), hmap k (by omega)]
    have he : k = rom.length - 1 := by omega
    simp only [romAltLine, he, if_pos rfl]
    simp [String.append_assoc]
  · intro n h1 h2
    refine ⟨?_, bin_length _ n⟩
    cases lhsObj <;> simp_all [romLiteral]

/-- Witness for claim C2 at the spec's own example: the 4-entry table
`[0, 1, 1, 0]` assigned to a `std_logic` target produces four alternatives,
the alternative at position 2 numbered and the last rendered as `others`. -/
theorem claim_C2_rom_case_witness :
    (romCaseLines "idx" "z" true .std_logic [0, 1, 1, 0]).length = 6 ∧
    (romCaseLines "idx" "z" true .std_logic [0, 1, 1, 0])[3]? =
      some ("when " ++ toString 2 ++ " => " ++ "z" ++
        (if true then " <= " else " := ") ++ romLiteral .std_logic 1) ∧
    (romCaseLines "idx" "z" true .std_logic [0, 1, 1, 0])[4]? =
      some ("when others => " ++ "z" ++ (if true then " <= " else " := ") ++
        romLiteral .std_logic
          ([0, 1, 1, 0].getLast (by decide : ([0, 1, 1, 0] : List Nat) ≠ []))) := by
  have h := claim_C2_rom_case "idx" "z" true .std_logic [0, 1, 1, 0] (by decide)
  exact ⟨h.1, h.2.2.2.1 2 (by decide), h.2.2.2.2.1⟩

/-- What the case-qualification predicate guarantees: the tested items are
pairwise distinct and every branch compares the one common variable. -/
theorem isCaseMappable_spec (node : IfStmt) (hc : isCaseMappable node = true) :
    (node.tests.map fun b => b.test.caseItem).Nodup ∧
    ∀ b ∈ node.tests, b.test.caseVarOf = some node.caseVar := by
  cases htests : node.tests with
  | nil =>
      rw [isCaseMappable, htests] at hc
      simp at hc
  | cons b bs =>
      rw [isCaseMappable, htests] at hc
      have hc2 : (match b.test.caseVarOf with
          | none => false
          | some v =>
              ((b :: bs).all fun br => decide (br.test.caseVarOf = some v)) &&
                decide ((b :: bs).map (fun br => br.test.caseItem)).Nodup) =
          true := hc
      clear hc
      cases hcv : b.test.caseVarOf with
      | none =>
          rw [hcv] at hc2
          simp at hc2
      | some v =>
          rw [hcv] at hc2
          rw [Bool.and_eq_true] at hc2
          obtain ⟨hall, hnodup⟩ := hc2
          have hvar : node.caseVar = v := by
            rw [IfStmt.caseVar, htests]
            show (match b.test with
                | TestExpr.eq v item => v
                | TestExpr.other rendered => "") = v
            cases hbt : b.test with
            | eq v' item =>
                rw [hbt] at hcv
                simp [TestExpr.caseVarOf] at hcv
                simpa using hcv
            | other s =>
                rw [hbt] at hcv
                simp [TestExpr.caseVarOf] at hcv
          rw [List.all_eq_true] at hall
          refine ⟨of_decide_eq_true hnodup, ?_⟩
          intro b2 hb2
          rw [hvar]
          simpa using hall b2 hb2

/-- Claim C3: a sequential process whose managed sensitivity list is one
edge-waiter is wrapped in exactly one enclosing edge guard; with two or
more edge-waiters, provided every branch of the body's outermost
conditional tests a locatable edge and a final else exists, the uncovered
edges are attached to the else branch (emitted as an `elsif` over their
disjunction), the sensitivity list is replaced by the plain underlying
signals and no outer guard is emitted; a branch without a locatable edge
test, or a missing else, is a translation error. -/
theorem claim_C3_edge_management :
    (∀ (name : String) (declLines : List String) (a : Stmt)
        (rest : List Stmt) (e : Edge),
      visitFunctionAlways name declLines (a :: rest) [Sens.waiter e] =
        .ok ((name ++ ": process (" ++ e.sig ++ ") is") ::
          declLines ++ ["begin"] ++ ["if " ++ e.toVHDL ++ " then"] ++
          (a :: rest).flatMap renderStmt ++ ["end if;"] ++
          ["end process " ++ name ++ ";"])) ∧
    (∀ (name : String) (declLines : List String) (ifnode : IfStmt)
        (rest : List Stmt) (e1 e2 : Edge) (es : List Edge)
        (els : List String) (uncov : List Sens),
      (∀ b ∈ ifnode.tests, b.testEdge ≠ none) →
      ifnode.elseSuite = some els →
      uncov = ((e1 :: e2 :: es).filter (fun w =>
        ¬ (ifnode.tests.filterMap (fun b => b.testEdge)).any
          (fun ae => w = ae))).map Sens.waiter →
      manageEdges (.ifStmt ifnode :: rest)
          ((e1 :: e2 :: es).map Sens.waiter) =
        .ok (.ifStmt {ifnode with elseEdge := some uncov} :: rest,
          (e1 :: e2 :: es).map (fun w => Sens.sig w.sig)) ∧
      visitFunctionAlways name declLines (.ifStmt ifnode :: rest)
          ((e1 :: e2 :: es).map Sens.waiter) =
        .ok ((name ++ ": process (" ++
            String.intercalate ", "
              ((e1 :: e2 :: es).map (fun w => w.sig)) ++ ") is") ::
          declLines ++ ["begin"] ++
          (visitIf {ifnode with elseEdge := some uncov} ++
            rest.flatMap renderStmt) ++
          ["end process " ++ name ++ ";"]) ∧
      elseIntro {ifnode with elseEdge := some uncov} =
        "elsif " ++ String.intercalate "or " (uncov.map Sens.toVHDL) ++
          " then") ∧
    (∀ (ifnode : IfStmt) (rest : List Stmt) (e1 e2 : Edge) (es : List Edge),
      (∃ b ∈ ifnode.tests, b.testEdge = none) →
      manageEdges (.ifStmt ifnode :: rest)
          ((e1 :: e2 :: es).map Sens.waiter) = .error "no edge test") ∧
    (∀ (ifnode : IfStmt) (rest : List Stmt) (e1 e2 : Edge) (es : List Edge),
      (∀ b ∈ ifnode.tests, b.testEdge ≠ none) →
      ifnode.elseSuite = none →
      manageEdges (.ifStmt ifnode :: rest)
          ((e1 :: e2 :: es).map Sens.waiter) = .error "no else test") := by
  refine ⟨visitFunctionAlways_single, ?_, manageEdges_noEdgeTest,
    manageEdges_noElseTest⟩
  intro name declLines ifnode rest e1 e2 es els uncov hall hels huncov
  exact ⟨manageEdges_multi ifnode rest e1 e2 es hall els hels uncov huncov,
    visitFunctionAlways_multi name declLines ifnode rest e1 e2 es hall els
      hels uncov huncov,
    rfl⟩

/-- Witness for claim C3 at concrete inputs: a single rising-edge process
is wrapped in one guard; a two-edge async-reset process gets the untested
clock edge attached to its else branch as an `elsif` and its sensitivity
list replaced by the signals; a branch with no locatable edge, or a
missing else, aborts. -/
theorem claim_C3_edge_management_witness :
    visitFunctionAlways "p" [] [Stmt.raw ["x <= y;"]]
        [Sens.waiter ⟨true, "clk"⟩] =
      .ok ["p: process (clk) is", "begin", "if rising_edge(clk) then",
        "x <= y;", "end if;", "end process p;"] ∧
    manageEdges
        [Stmt.ifStmt ⟨false,
          [⟨.other "(reset = '0')", some ⟨false, "reset"⟩, ["q <= '0';"]⟩],
          some ["q <= d;"], none⟩]
        [Sens.waiter ⟨false, "reset"⟩, Sens.waiter ⟨true, "clk"⟩] =
      .ok ([Stmt.ifStmt ⟨false,
          [⟨.other "(reset = '0')", some ⟨false, "reset"⟩, ["q <= '0';"]⟩],
          some ["q <= d;"], some [Sens.waiter ⟨true, "clk"⟩]⟩],
        [Sens.sig "reset", Sens.sig "clk"]) ∧
    elseIntro ⟨false,
        [⟨.other "(reset = '0')", some ⟨false, "reset"⟩, ["q <= '0';"]⟩],
        some ["q <= d;"], some [Sens.waiter ⟨true, "clk"⟩]⟩ =
      "elsif rising_edge(clk) then" ∧
    manageEdges
        [Stmt.ifStmt ⟨false, [⟨.other "(a = b)", none, ["q <= '0';"]⟩],
          some ["q <= d;"], none⟩]
        [Sens.waiter ⟨false, "reset"⟩, Sens.waiter ⟨true, "clk"⟩] =
      .error "no edge test" ∧
    manageEdges
        [Stmt.ifStmt ⟨false,
          [⟨.other "(reset = '0')", some ⟨false, "reset"⟩, ["q <= '0';"]⟩],
          none, none⟩]
        [Sens.waiter ⟨false, "reset"⟩, Sens.waiter ⟨true, "clk"⟩] =
      .error "no else test" := by
  have h := claim_C3_edge_management
  refine ⟨?_, ?_, ?_, ?_, ?_⟩
  · have h1 := h.1 "p" [] (Stmt.raw ["x <= y;"]) [] ⟨true, "clk"⟩
    rw [h1]
    rfl
  · have h2 := h.2.1 "p2" []
      ⟨false, [⟨.other "(reset = '0')", some ⟨false, "reset"⟩, ["q <= '0';"]⟩],
        some ["q <= d;"], none⟩
      [] ⟨false, "reset"⟩ ⟨true, "clk"⟩ [] ["q <= d;"]
      [Sens.waiter ⟨true, "clk"⟩] (by decide) rfl (by decide)
    exact h2.1.trans (by rfl)
  · have h2 := h.2.1 "p2" []
      ⟨false, [⟨.other "(reset = '0')", some ⟨false, "reset"⟩, ["q <= '0';"]⟩],
        some ["q <= d;"], none⟩
      [] ⟨false, "reset"⟩ ⟨true, "clk"⟩ [] ["q <= d;"]
      [Sens.waiter ⟨true, "clk"⟩] (by decide) rfl (by decide)
    exact h2.2.2.trans (by rfl)
  · exact h.2.2.1
      ⟨false, [⟨.other "(a = b)", none, ["q <= '0';"]⟩], some ["q <= d;"], none⟩
      [] ⟨false, "reset"⟩ ⟨true, "clk"⟩ []
      ⟨⟨.other "(a = b)", none, ["q <= '0';"]⟩, by decide, rfl⟩
  · exact h.2.2.2
      ⟨false, [⟨.other "(reset = '0')", some ⟨false, "reset"⟩, ["q <= '0';"]⟩],
        none, none⟩
      [] ⟨false, "reset"⟩ ⟨true, "clk"⟩ [] (by decide) rfl

/-- Claim C4: for every binary arithmetic node (`+`, `-`, `mod`) in the
type-annotation pass, both-Integer operands give Integer; both operands in
{Signed, Integer} give Signed of the maximum width; both in
{Unsigned, Integer} give Unsigned of the maximum width; every other
combination falls back to Integer. -/
theorem claim_C4_arith_rule (l r : Option VhdlType) :
    (l = some .int ∧ r = some .int → annotateBinaryOp l r = .int) ∧
    (¬(l = some .int ∧ r = some .int) →
      (l = some .int ∨ ∃ a, l = some (.signed a)) →
      (r = some .int ∨ ∃ b, r = some (.signed b)) →
      annotateBinaryOp l r = .signed (max (optSize l) (optSize r))) ∧
    (¬(l = some .int ∧ r = some .int) →
      (l = some .int ∨ ∃ a, l = some (.unsigned a)) →
      (r = some .int ∨ ∃ b, r = some (.unsigned b)) →
      annotateBinaryOp l r = .unsigned (max (optSize l) (optSize r))) ∧
    (¬((l = some .int ∨ ∃ a, l = some (.signed a)) ∧
        (r = some .int ∨ ∃ b, r = some (.signed b))) →
      ¬((l = some .int ∨ ∃ a, l = some (.unsigned a)) ∧
        (r = some .int ∨ ∃ b, r = some (.unsigned b))) →
      annotateBinaryOp l r = .int) := by
  refine ⟨?_, ?_, ?_, ?_⟩
  · rintro ⟨hl, hr⟩
    subst hl; subst hr; rfl
  · rintro hni (hl | ⟨a, hl⟩) (hr | ⟨b, hr⟩)
    · exact absurd ⟨hl, hr⟩ hni
    all_goals subst hl; subst hr; simp [annotateBinaryOp, isIntT,
      isSignedOrIntT]
  · rintro hni (hl | ⟨a, hl⟩) (hr | ⟨b, hr⟩)
    · exact absurd ⟨hl, hr⟩ hni
    all_goals subst hl; subst hr; simp [annotateBinaryOp, isIntT,
      isSignedOrIntT, isUnsignedOrIntT]
  · intro hs hu
    match l, r with
    | some .int, some .int => exact absurd ⟨Or.inl rfl, Or.inl rfl⟩ hs
    | some .int, some (.signed b) =>
        exact absurd ⟨Or.inl rfl, Or.inr ⟨b, rfl⟩⟩ hs
    | some (.signed a), some .int =>
        exact absurd ⟨Or.inr ⟨a, rfl⟩, Or.inl rfl⟩ hs
    | some (.signed a), some (.signed b) =>
        exact absurd ⟨Or.inr ⟨a, rfl⟩, Or.inr ⟨b, rfl⟩⟩ hs
    | some .int, some (.unsigned b) =>
        exact absurd ⟨Or.inl rfl, Or.inr ⟨b, rfl⟩⟩ hu
    | some (.unsigned a), some .int =>
        exact absurd ⟨Or.inr ⟨a, rfl⟩, Or.inl rfl⟩ hu
    | some (.unsigned a), some (.unsigned b) =>
        exact absurd ⟨Or.inr ⟨a, rfl⟩, Or.inr ⟨b, rfl⟩⟩ hu
    | some (.unsigned a), some (.signed b) => rfl
    | some (.signed a), some (.unsigned b) => rfl
    | some .std_logic, r' =>
        cases r' with
        | none => rfl
        | some t => cases t <;> rfl
    | some .boolean, r' =>
        cases r' with
        | none => rfl
        | some t => cases t <;> rfl
    | none, r' =>
        cases r' with
        | none => rfl
        | some t => cases t <;> rfl
    | some (.unsigned a), some .std_logic => rfl
    | some (.unsigned a), some .boolean => rfl
    | some (.unsigned a), none => rfl
    | some (.signed a), some .std_logic => rfl
    | some (.signed a), some .boolean => rfl
    | some (.signed a), none => rfl
    | some .int, some .std_logic => rfl
    | some .int, some .boolean => rfl
    | some .int, none => rfl

/-- Witness for claim C4 at a concrete input: `Signed(4)` plus Integer
yields `Signed(4)`. -/
theorem claim_C4_arith_rule_witness :
    annotateBinaryOp (some (.signed 4)) (some .int) = .signed 4 :=
  (claim_C4_arith_rule (some (.signed 4)) (some .int)).2.1
    (by decide) (Or.inr ⟨4, rfl⟩) (Or.inl rfl)

/-- Claim C5 counterexample: on an operand pair matched by none of the
`combine` cases (two boolean descriptors), `maxType` returns `None` and the
bitwise-operation annotator completes normally, assigning `None` to the
node and to both operands — no `UnsupportedType` translation error is
raised. -/
theorem claim_C5_counterexample :
    maxType (some .boolean) (some .boolean) = none ∧
    annotateMultiBitOp [some .boolean, some .boolean] =
      .ok (none, [none, none]) ∧
    annotateCompare (some .boolean) (some .boolean) =
      .ok (.boolean, none, none) := by
  refine ⟨rfl, rfl, rfl⟩

/-- Claim C5 as amended: `combine(a, b)` (`maxType`) returns
`Signed(max(width_a, width_b))` if either operand is Signed, else
`Unsigned(max)` if either is Unsigned, else Bit if either is Bit, else
Integer if either is Integer; for any operand pair matching none of these
cases `maxType` returns no result (Python `None`), and the bitwise
annotator and the comparison unifier always complete without raising any
translation error, silently propagating the undefined (`None`)
descriptor. -/
theorem claim_C5_combine_amended (o1 o2 : Option VhdlType) :
    ((∃ a, o1 = some (.signed a)) ∨ (∃ a, o2 = some (.signed a)) →
      maxType o1 o2 = some (.signed (max (optSize o1) (optSize o2)))) ∧
    (¬((∃ a, o1 = some (.signed a)) ∨ (∃ a, o2 = some (.signed a))) →
      (∃ a, o1 = some (.unsigned a)) ∨ (∃ a, o2 = some (.unsigned a)) →
      maxType o1 o2 = some (.unsigned (max (optSize o1) (optSize o2)))) ∧
    (¬((∃ a, o1 = some (.signed a)) ∨ (∃ a, o2 = some (.signed a))) →
      ¬((∃ a, o1 = some (.unsigned a)) ∨ (∃ a, o2 = some (.unsigned a))) →
      o1 = some .std_logic ∨ o2 = some .std_logic →
      maxType o1 o2 = some .std_logic) ∧
    (¬((∃ a, o1 = some (.signed a)) ∨ (∃ a, o2 = some (.signed a))) →
      ¬((∃ a, o1 = some (.unsigned a)) ∨ (∃ a, o2 = some (.unsigned a))) →
      ¬(o1 = some .std_logic ∨ o2 = some .std_logic) →
      o1 = some .int ∨ o2 = some .int →
      maxType o1 o2 = some .int) ∧
    (¬((∃ a, o1 = some (.signed a)) ∨ (∃ a, o2 = some (.signed a))) →
      ¬((∃ a, o1 = some (.unsigned a)) ∨ (∃ a, o2 = some (.unsigned a))) →
      ¬(o1 = some .std_logic ∨ o2 = some .std_logic) →
      ¬(o1 = some .int ∨ o2 = some .int) →
      maxType o1 o2 = none) ∧
    (∀ objs : List (Option VhdlType), ∃ p, annotateMultiBitOp objs = .ok p) ∧
    (∃ p, annotateCompare o1 o2 = .ok p) := by
  have hsg : ((∃ a, o1 = some (.signed a)) ∨ (∃ a, o2 = some (.signed a))) ↔
      (isSignedT o1 || isSignedT o2) = true := by
    cases o1 with
    | none => cases o2 with
      | none => simp [isSignedT]
      | some t => cases t <;> simp [isSignedT]
    | some s => cases s <;> cases o2 with
      | none => simp [isSignedT]
      | some t => cases t <;> simp [isSignedT]
  have hug : ((∃ a, o1 = some (.unsigned a)) ∨ (∃ a, o2 = some (.unsigned a))) ↔
      (isUnsignedT o1 || isUnsignedT o2) = true := by
    cases o1 with
    | none => cases o2 with
      | none => simp [isUnsignedT]
      | some t => cases t <;> simp [isUnsignedT]
    | some s => cases s <;> cases o2 with
      | none => simp [isUnsignedT]
      | some t => cases t <;> simp [isUnsignedT]
  have hlg : (o1 = some .std_logic ∨ o2 = some .std_logic) ↔
      (isStdLogicT o1 || isStdLogicT o2) = true := by
    cases o1 with
    | none => cases o2 with
      | none => simp [isStdLogicT]
      | some t => cases t <;> simp [isStdLogicT]
    | some s => cases s <;> cases o2 with
      | none => simp [isStdLogicT]
      | some t => cases t <;> simp [isStdLogicT]
  have hig : (o1 = some .int ∨ o2 = some .int) ↔
      (isIntT o1 || isIntT o2) = true := by
    cases o1 with
    | none => cases o2 with
      | none => simp [isIntT]
      | some t => cases t <;> simp [isIntT]
    | some s => cases s <;> cases o2 with
      | none => simp [isIntT]
      | some t => cases t <;> simp [isIntT]
  refine ⟨?_, ?_, ?_, ?_, ?_, ?_, ?_⟩
  · intro h
    simp [maxType, hsg.mp h]
  · intro hns h
    have hns' : (isSignedT o1 || isSignedT o2) = false :=
      Bool.eq_false_iff.mpr (fun hb => hns (hsg.mpr hb))
    simp [maxType, hns', hug.mp h]
  · intro hns hnu h
    have hns' : (isSignedT o1 || isSignedT o2) = false :=
      Bool.eq_false_iff.mpr (fun hb => hns (hsg.mpr hb))
    have hnu' : (isUnsignedT o1 || isUnsignedT o2) = false :=
      Bool.eq_false_iff.mpr (fun hb => hnu (hug.mpr hb))
    simp [maxType, hns', hnu', hlg.mp h]
  · intro hns hnu hnl h
    have hns' : (isSignedT o1 || isSignedT o2) = false :=
      Bool.eq_false_iff.mpr (fun hb => hns (hsg.mpr hb))
    have hnu' : (isUnsignedT o1 || isUnsignedT o2) = false :=
      Bool.eq_false_iff.mpr (fun hb => hnu (hug.mpr hb))
    have hnl' : (isStdLogicT o1 || isStdLogicT o2) = false :=
      Bool.eq_false_iff.mpr (fun hb => hnl (hlg.mpr hb))
    simp [maxType, hns', hnu', hnl', hig.mp h]
  · intro hns hnu hnl hni
    have hns' : (isSignedT o1 || isSignedT o2) = false :=
      Bool.eq_false_iff.mpr (fun hb => hns (hsg.mpr hb))
    have hnu' : (isUnsignedT o1 || isUnsignedT o2) = false :=
      Bool.eq_false_iff.mpr (fun hb => hnu (hug.mpr hb))
    have hnl' : (isStdLogicT o1 || isStdLogicT o2) = false :=
      Bool.eq_false_iff.mpr (fun hb => hnl (hlg.mpr hb))
    have hni' : (isIntT o1 || isIntT o2) = false :=
      Bool.eq_false_iff.mpr (fun hb => hni (hig.mpr hb))
    simp [maxType, hns', hnu', hnl', hni']
  · intro objs
    exact ⟨_, rfl⟩
  · exact ⟨_, rfl⟩

/-- Witness for the amended claim C5 at a concrete input: a
`Signed(4)`/`Unsigned(8)` pair combines to `Signed(8)`. -/
theorem claim_C5_combine_amended_witness :
    maxType (some (.signed 4)) (some (.unsigned 8)) = some (.signed 8) :=
  (claim_C5_combine_amended (some (.signed 4)) (some (.unsigned 8))).1
    (Or.inl ⟨4, rfl⟩)

/-- Claim C6: a multi-branch conditional is emitted as an if/elsif/else
chain unless every branch's test is an equality comparison of one common
variable against distinct constant/enumerated values, in which case it is
emitted as a `case` statement on that variable with one alternative per
tested value in source order, the branch bodies unchanged, and the
trailing else branch emitted as the `others` alternative. -/
theorem claim_C6_conditional_mapping (node : IfStmt)
    (hig : node.ignore = false) :
    (isCaseMappable node = false → visitIf node = mapToIf node ∧
      mapToIf node = (node.tests.enum.flatMap fun p =>
          ((if p.1 = 0 then "if " else "elsif ") ++ p.2.test.render ++ " then")
            :: p.2.suite)
        ++ (match node.elseSuite with
            | some els => elseIntro node :: els
            | none => [])
        ++ ["end if;"]) ∧
    (isCaseMappable node = true →
      visitIf node = mapToCase node ∧
      mapToCase node = ("case " ++ node.caseVar ++ " is") ::
        ((node.tests.flatMap fun b =>
            ("when " ++ b.test.caseItem ++ " =>") :: b.suite)
          ++ (match node.elseSuite with
              | some els => "when others =>" :: els
              | none => [])
          ++ ["end case;"]) ∧
      (node.tests.map fun b => b.test.caseItem).Nodup ∧
      ∀ b ∈ node.tests, b.test.caseVarOf = some node.caseVar) := by
  refine ⟨fun hnc => ⟨by simp [visitIf, hig, hnc], rfl⟩,
    fun hc => ⟨by simp [visitIf, hig, hc], rfl,
      (isCaseMappable_spec node hc).1, (isCaseMappable_spec node hc).2⟩⟩

/-- Witness for claim C6 at the spec's own example: an if-chain testing
`x = A`, `x = B`, else (A, B distinct) is emitted as a case statement with
identical branch bodies; the same chain with overlapping tests (`x = A`
twice) stays an if/elsif/else chain. -/
theorem claim_C6_conditional_mapping_witness :
    visitIf ⟨false, [⟨.eq "x" "A", none, ["y <= a;"]⟩,
        ⟨.eq "x" "B", none, ["y <= b;"]⟩], some ["y <= c;"], none⟩ =
      ["case x is", "when A =>", "y <= a;", "when B =>", "y <= b;",
        "when others =>", "y <= c;", "end case;"] ∧
    visitIf ⟨false, [⟨.eq "x" "A", none, ["y <= a;"]⟩,
        ⟨.eq "x" "A", none, ["y <= b;"]⟩], some ["y <= c;"], none⟩ =
      ["if (x = A) then", "y <= a;", "elsif (x = A) then", "y <= b;",
        "else", "y <= c;", "end if;"] := by
  constructor
  · have h := (claim_C6_conditional_mapping
      ⟨false, [⟨.eq "x" "A", none, ["y <= a;"]⟩,
        ⟨.eq "x" "B", none, ["y <= b;"]⟩], some ["y <= c;"], none⟩ rfl).2
      (by decide)
    exact h.1.trans (by rfl)
  · have h := (claim_C6_conditional_mapping
      ⟨false, [⟨.eq "x" "A", none, ["y <= a;"]⟩,
        ⟨.eq "x" "A", none, ["y <= b;"]⟩], some ["y <= c;"], none⟩ rfl).1
      (by decide)
    exact h.1.trans (by rfl)

/-- Claim C7: for every enumerated type referenced at least once in a
design, its declaration appears exactly once in the whole output
regardless of how many sites reference it, and after the end-of-conversion
cleanup every `declared` flag is cleared again, so a subsequent
independent conversion starts clean. -/
theorem claim_C7_enum_declared_once :
    (∀ (sites : List String) (L : List String) (t : String),
      t ∈ sites → (runEnumSites sites ⟨[], L⟩).1.count t = 1) ∧
    (∀ (sites : List String) (L : List String),
      (clearDeclaredAll (runEnumSites sites ⟨[], L⟩).2).declared = []) := by
  constructor
  · intro sites L t ht
    have h2 := (runEnum_count sites ⟨[], L⟩ t).2 (by simp)
    rw [h2]
    simp [runEnum_mem_declared sites ⟨[], L⟩ t ht]
  · intro sites L
    have hsub := runEnum_declared_in_list sites ⟨[], L⟩ (by simp)
    simp only [clearDeclaredAll]
    rw [List.filter_eq_nil_iff]
    intro t ht
    simp [hsub t ht]

/-- Witness for claim C7 at a concrete input: a type referenced at three
sites (with another type in between) is declared exactly once and its flag
is clear again after the cleanup. -/
theorem claim_C7_enum_declared_once_witness :
    (runEnumSites ["T", "U", "T"] ⟨[], []⟩).1.count "T" = 1 ∧
    (clearDeclaredAll (runEnumSites ["T", "U", "T"] ⟨[], []⟩).2).declared =
      [] :=
  ⟨claim_C7_enum_declared_once.1 ["T", "U", "T"] [] "T" (by decide),
    claim_C7_enum_declared_once.2 ["T", "U", "T"] []⟩

/-- Claim C8: a signal that is read but never driven gets its declaration
emitted anyway plus a constant continuous assignment of its current value
and a non-fatal `UndrivenSignal` advisory, and the conversion completes
with full output rather than aborting. -/
theorem claim_C8_undriven_recovery (argnames : List String)
    (siglist : List Sig) (memlist : List Mem) (st : EnumState) (s : Sig)
    (hs : s ∈ siglist) (hna : s.name ∉ argnames)
    (hr : s.read = true) (hd : s.driven = false)
    (hwf : ∀ s' ∈ siglist,
      s'.enumName.isSome ∨ s'.isBool = true ∨ s'.nrbits.isSome)
    (hwfm : ∀ m ∈ memlist, m.decl = true →
      m.elObj.enumName.isSome ∨ m.elObj.isBool = true ∨
        m.elObj.nrbits.isSome)
    (r : String) (hrr : getRangeString s = .ok r) :
    ∃ lines warns st2,
      writeSigDecls argnames siglist memlist st = .ok (lines, warns, st2) ∧
      ("wire " ++ r ++ s.name ++ ";") ∈ lines ∧
      (s.name ++ " <= " ++ toString s.val ++ ";") ∈ lines ∧
      ("UndrivenSignal: " ++ s.name) ∈ warns := by
  obtain ⟨⟨ls, ws, cs, st2⟩, hok⟩ := sigLoop_ok argnames siglist hwf st
  obtain ⟨ms, hms⟩ := memLoop_ok memlist hwfm
  obtain ⟨h1, h2, h3⟩ := sigLoop_undriven_mem argnames s hna hr hd r hrr
    siglist st ls ws cs st2 hs hok
  refine ⟨ls ++ ms ++
    cs.map (fun s0 => s0.name ++ " <= " ++ toString s0.val ++ ";"),
    ws, st2, ?_, ?_, ?_, ?_⟩
  · simp only [writeSigDecls, hok, hms]
  · simp [h1]
  · refine List.mem_append.mpr (Or.inr ?_)
    exact List.mem_map.mpr ⟨s, h3, rfl⟩
  · exact h2

/-- Witness for claim C8 at a concrete input: a 4-bit signal `u` with
value 5 that is read and never driven yields a `wire` declaration, the
constant assignment `u <= 5;` and the advisory, with the writer
completing. -/
theorem claim_C8_undriven_recovery_witness :
    ∃ lines warns st2,
      writeSigDecls [] [⟨"u", none, false, some 4, false, 5, false, true⟩]
          [] ⟨[], []⟩ = .ok (lines, warns, st2) ∧
      ("wire " ++ "(3 downto 0)" ++ "u" ++ ";") ∈ lines ∧
      ("u" ++ " <= " ++ toString (5 : Int) ++ ";") ∈ lines ∧
      ("UndrivenSignal: " ++ "u") ∈ warns :=
  claim_C8_undriven_recovery []
    [⟨"u", none, false, some 4, false, 5, false, true⟩] [] ⟨[], []⟩
    ⟨"u", none, false, some 4, false, 5, false, true⟩
    (by simp) (by simp) rfl rfl (by simp) (by simp)
    "(3 downto 0)" (by rfl)

/-- Claim C10: an invocation of the convertor while no conversion is in
progress leaves the process-wide re-entrancy flag at 0 whether the call
returns or raises — the flag is cleared in a `finally` around hierarchy
extraction and every later failure happens with the flag already clear —
and such an invocation is never spuriously downgraded to the pass-through
call. -/
theorem claim_C10_reentrancy_flag (c : ConvCall) :
    (toVHDLCall 0 c).convertingAfter = 0 ∧
    (toVHDLCall 0 c).passthrough = false := by
  obtain ⟨t, ic, he, ph⟩ := c
  cases t with
  | true => simp [toVHDLCall]
  | false =>
      cases ic with
      | false => simp [toVHDLCall]
      | true =>
          cases he with
          | error e => simp [toVHDLCall]
          | ok u =>
              cases u
              cases hph : runPhases ph with
              | error e => simp [toVHDLCall, hph]
              | ok u2 =>
                  cases u2
                  simp [toVHDLCall, hph]

/-- Claim C9 evaluated at the failing input: a conversion whose first
post-open phase raises a translation error (the port-shadowing check of
`_writeModuleHeader`, for example) ends with the error propagated, the
output file opened and NOT closed — while a fully successful conversion
does close it. -/
theorem claim_C9_file_left_open_on_failure :
    (toVHDLCall 0 ⟨false, true, .ok (),
      [.error "ShadowingSignal"]⟩).fileOpened = true ∧
    (toVHDLCall 0 ⟨false, true, .ok (),
      [.error "ShadowingSignal"]⟩).fileClosed = false ∧
    (toVHDLCall 0 ⟨false, true, .ok (),
      [.error "ShadowingSignal"]⟩).result = .error "ShadowingSignal" ∧
    (toVHDLCall 0 ⟨false, true, .ok (),
      [.ok (), .ok ()]⟩).fileClosed = true :=
  ⟨rfl, rfl, rfl, rfl⟩

end ToVHDL
